import Mathlib

/-!
Verification of the rectorch data-preprocessing module (`data.py`).

The module turns a raw user-item interaction table into filtered,
re-indexed and user-partitioned train/validation/test tables
(`DataProcessing`), and reads the persisted tables back as sparse
user-by-item matrices (`DataReader`).

This file gives a shallow embedding of that code over Lean lists:
a table row is a list of natural-number cells (cell 0 = user external
id, cell 1 = item external id, cell 2 = rating value), a pandas
DataFrame is a list of rows together with its column names, and the
scipy CSR matrices of the reader are represented row-wise by the list
of stored (column, value) entries of each row.  numpy's globally
seeded random generator is modelled by an abstract seeded generator
interface (`RngOps`) threaded explicitly through the code, so that
statements about the randomised parts are made relative to the
documented contracts of `np.random.permutation` / `np.random.choice`.
-/

set_option linter.unusedVariables false
set_option autoImplicit false

attribute [local semireducible] Rat.mul Rat.add Rat.sub Rat.inv

/-- A table row: cell 0 is the user external id, cell 1 the item
external id, cell 2 the rating value (`data.columns.values[:2]` are the
user/item headers throughout `data.py`). -/
abbrev Row := List Nat

/-- First column of a row (`data[uhead]`). -/
def userOf (r : Row) : Nat := r.getD 0 0

/-- Second column of a row (`data[ihead]`). -/
def itemOf (r : Row) : Nat := r.getD 1 0

/-- Third column of a row (`raw_data.columns.values[2]`, the rating). -/
def valueOf (r : Row) : Nat := r.getD 2 0

/-- A pandas DataFrame: ordered column names plus the list of rows. -/
structure Table where
  cols : List String
  rows : List Row
deriving DecidableEq, Repr

/-- Number of rows of `l` whose key equals `k` — one entry of the
`data[[id]].groupby(id).size()` count used in `DataProcessing.filter`. -/
def countBy (l : List Row) (key : Row → Nat) (k : Nat) : Nat :=
  (l.filter (fun r => key r == k)).length

/-- Helper of `uniqueFirst`: keep the values not seen yet, in order. -/
def uniqueFirstAux (seen : List Nat) : List Nat → List Nat
  | [] => []
  | a :: l => if a ∈ seen then uniqueFirstAux seen l else a :: uniqueFirstAux (a :: seen) l

/-- Distinct values of a list in first-seen order (`pd.unique`). -/
def uniqueFirst (l : List Nat) : List Nat := uniqueFirstAux [] l

/-- Insert into a sorted list (helper for `sortNat`). -/
def insSorted (a : Nat) : List Nat → List Nat
  | [] => [a]
  | b :: l => if a ≤ b then a :: b :: l else b :: insSorted a l

/-- Ascending insertion sort; models the sorted key order in which
pandas `groupby` enumerates its groups. -/
def sortNat (l : List Nat) : List Nat := l.foldr insSorted []

/-- The sorted distinct key values of a table column: the index of the
Series produced by `data[[id]].groupby(id, as_index=False).size()`. -/
def keysOf (l : List Row) (key : Row → Nat) : List Nat :=
  sortNat (uniqueFirst (l.map key))

/-- `get_count(data, id)` of `DataProcessing.filter`: per-key group
sizes, indexed by the sorted distinct keys. -/
def get_count (l : List Row) (key : Row → Nat) : List (Nat × Nat) :=
  (keysOf l key).map (fun k => (k, countBy l key k))

/-- The item-pruning step of `DataProcessing.filter` (lines 115-117):
if `min_i > 0`, keep rows whose item occurs at least `min_i` times in
the incoming table. -/
def itemPruned (l : List Row) (min_i : Nat) : List Row :=
  if 0 < min_i then l.filter (fun r => min_i ≤ countBy l itemOf (itemOf r)) else l

/-- The user-pruning step of `DataProcessing.filter` (lines 119-121):
if `min_u > 0`, keep rows whose user occurs at least `min_u` times in
the (already item-pruned) incoming table. -/
def userPruned (l : List Row) (min_u : Nat) : List Row :=
  if 0 < min_u then l.filter (fun r => min_u ≤ countBy l userOf (userOf r)) else l

/-- `DataProcessing.filter(data, min_u, min_i)`: item-prune, then
user-prune, then return the table with user and item counts recomputed
on the result. -/
def filterTbl (l : List Row) (min_u min_i : Nat) :
    List Row × List (Nat × Nat) × List (Nat × Nat) :=
  let l2 := userPruned (itemPruned l min_i) min_u
  (l2, get_count l2 userOf, get_count l2 itemOf)

/-! ### Materializer: `DataProcessing.numerize` -/

/-- Position assigned to key `x` by the Python dict built with
`dict((k, i) for (i, k) in enumerate(l))`: the index of the last
occurrence of `x` in `l` (later dict assignments win), or `none` when
`x` is absent — in which case `data[uhead].apply(lambda x: u2id[x])`
raises `KeyError`. -/
def dictLookup : List Nat → Nat → Option Nat
  | [], _ => none
  | a :: l, x =>
    match dictLookup l x with
    | some i => some (i + 1)
    | none => if a = x then some 0 else none

/-- `Series.apply` of a fallible lookup over a column: `some` of the
mapped column, or `none` as soon as one lookup raises `KeyError`. -/
def mapO {α β : Type} (f : α → Option β) : List α → Option (List β)
  | [] => some []
  | a :: l =>
    match f a, mapO f l with
    | some b, some bs => some (b :: bs)
    | _, _ => none

/-- `DataProcessing.numerize(data, u2id, i2id)`: map the first two
columns through the id dictionaries (a missing key is a fatal lookup
error, modelled as `none`); in top-N mode keep exactly the mapped
`uid`/`iid` columns, otherwise keep the remaining columns after them. -/
def numerize (topn : Bool) (t : Table) (u2id i2id : Nat → Option Nat) : Option Table := do
  let uid ← mapO (fun r => u2id (userOf r)) t.rows
  let iid ← mapO (fun r => i2id (itemOf r)) t.rows
  if topn then
    pure ⟨["uid", "iid"], (uid.zip iid).map (fun p => [p.1, p.2])⟩
  else
    pure ⟨["uid", "iid"] ++ t.cols.drop 2,
      ((uid.zip iid).zip (t.rows.map (fun r => r.drop 2))).map
        (fun p => p.1.1 :: p.1.2 :: p.2)⟩

/-! ### Splitter: `DataProcessing.split_train_test` -/

/-- Python `int()` of a rational: truncation toward zero. -/
def pyInt (q : ℚ) : Int := if q < 0 then ⌈q⌉ else ⌊q⌋

/-- `max(int(test_prop * n_items_u), 1)` — the held-out size of a
group of `k` interactions (line 150 of `data.py`). -/
def szOf (tp : ℚ) (k : Nat) : Nat := max (pyInt (tp * k)).toNat 1

/-- Abstract interface of numpy's globally seeded random generator:
`seedFn` is `np.random.seed`, `permFn` is `np.random.permutation(n)`
and `choiceFn st n size` is `np.random.choice(n, size=size,
replace=False)`, each returning the advanced generator state. -/
structure RngOps (σ : Type) where
  seedFn : Nat → σ
  permFn : σ → Nat → List Nat × σ
  choiceFn : σ → Nat → Nat → List Nat × σ

/-- Body of the per-user loop of `split_train_test` (lines 146-155):
for a group with more than one interaction, mark the chosen positions
in a boolean index and slice the group into the unmarked ("tr") and
marked ("te") rows; otherwise the user is skipped with a warning. -/
def splitGroup {σ : Type} (ops : RngOps σ) (st : σ) (tp : ℚ) (group : List Row) :
    List Row × List Row × σ :=
  let n := group.length
  if 1 < n then
    let sz := szOf tp n
    let pick := ops.choiceFn st n sz
    let te := (group.enum.filter (fun p => p.1 ∈ pick.1)).map (fun p => p.2)
    let tr := (group.enum.filter (fun p => p.1 ∉ pick.1)).map (fun p => p.2)
    (tr, te, pick.2)
  else ([], [], st)

/-- `DataProcessing.split_train_test(data)`: re-seed the generator
(line 140, discarding the inherited state `stIn`), then fold the
per-user split over the groups in sorted user order (pandas `groupby`
order), concatenating the per-group "tr" and "te" slices. -/
def split_train_test {σ : Type} (ops : RngOps σ) (stIn : σ) (seed : Nat) (tp : ℚ)
    (rows : List Row) : (List Row × List Row) × σ :=
  let st0 := ops.seedFn seed
  let res := (keysOf rows userOf).foldl
    (fun acc u =>
      let group := rows.filter (fun r => userOf r == u)
      let gres := splitGroup ops acc.2.2 tp group
      (acc.1 ++ gres.1, acc.2.1 ++ gres.2.1, gres.2.2))
    ([], [], st0)
  ((res.1, res.2.1), res.2.2)

/-- Concrete generator instance used in the witnesses: unit state,
identity permutation, and first-indices choice (a valid instance of
the `np.random.permutation` / `np.random.choice` contracts). -/
def ops0 : RngOps Unit where
  seedFn := fun _ => ()
  permFn := fun _ n => (List.range n, ())
  choiceFn := fun _ _ sz => (List.range sz, ())

/-! ### Reader: `DataReader` -/

/-- The reader's configuration: the top-N flag and `n_items`, the
line count of `unique_iid.txt` fixed once in `DataReader.__init__`. -/
structure ReaderCfg where
  topn : Bool
  n_items : Nat
deriving DecidableEq, Repr

/-- A scipy CSR matrix, represented by its column count and, for each
row, the list of stored (column, value) entries; a row's entry list is
empty exactly when `np.diff(indptr)` is `0` at that row. -/
structure SpMat where
  ncols : Nat
  rowsE : List (List (Nat × ℚ))
deriving DecidableEq, Repr

/-- `Series.min()` of a non-empty uid column (0 for the empty column,
on which pandas would produce NaN). -/
def minL : List Nat → Nat
  | [] => 0
  | a :: l => l.foldl Nat.min a

/-- `Series.max()` of a non-empty uid column. -/
def maxL : List Nat → Nat
  | [] => 0
  | a :: l => l.foldl Nat.max a

/-- A persisted csv row read back by the reader: (uid, iid, value). -/
abbrev CsvRow := Nat × Nat × Nat

/-- The value stored for one csv row: `np.ones_like` in top-N mode,
the third column otherwise (lines 225-230). -/
def valOfCfg (cfg : ReaderCfg) (v : Nat) : ℚ := if cfg.topn then 1 else (v : ℚ)

/-- `sparse.csr_matrix((values, (rows, cols)), shape=(nrows, ncols))`:
row `i` stores the (col, value) entries of the triplets whose row
index is `i`. -/
def buildCsr (trip : List (Nat × Nat × ℚ)) (nrows ncols : Nat) : SpMat :=
  ⟨ncols, (List.range nrows).map
    (fun i => (trip.filter (fun t => t.1 == i)).map (fun t => t.2))⟩

/-- The (row = uid − start, col = iid, value) triplets of a csv table. -/
def tripletsOf (cfg : ReaderCfg) (tbl : List CsvRow) (start : Nat) :
    List (Nat × Nat × ℚ) :=
  tbl.map (fun t => (t.1 - start, t.2.1, valOfCfg cfg t.2.2))

/-- Boolean-mask row indexing `m[mask]` of scipy/numpy. -/
def maskFilter {α : Type} (mask : List Bool) (l : List α) : List α :=
  ((mask.zip l).filter (fun p => p.1)).map (fun p => p.2)

/-- `DataReader.load_train_test_data` before the row-pruning step
(lines 219-239): common row origin = min uid over both tables, row
count = max uid − min uid + 1 over both tables, and one CSR matrix per
table over that shared row range. -/
def loadTTpre (cfg : ReaderCfg) (ttr tte : List CsvRow) : SpMat × SpMat :=
  let start := Nat.min (minL (ttr.map (fun t => t.1))) (minL (tte.map (fun t => t.1)))
  let stop := Nat.max (maxL (ttr.map (fun t => t.1))) (maxL (tte.map (fun t => t.1)))
  let n := stop - start + 1
  (buildCsr (tripletsOf cfg ttr start) n cfg.n_items,
   buildCsr (tripletsOf cfg tte start) n cfg.n_items)

/-- `DataReader.load_train_test_data` (lines 212-244): build the two
aligned matrices, then drop rows using the boolean mask computed from
the tr matrix alone (`tr_idx = np.diff(data_tr.indptr) != 0`; the
combined `keep_idx = tr_idx * te_idx` of line 243 is computed but
never used) — `return data_tr[tr_idx], data_te[tr_idx]`. -/
def loadTT (cfg : ReaderCfg) (ttr tte : List CsvRow) : SpMat × SpMat :=
  let pre := loadTTpre cfg ttr tte
  let tr_idx := pre.1.rowsE.map (fun row => !row.isEmpty)
  (⟨cfg.n_items, maskFilter tr_idx pre.1.rowsE⟩,
   ⟨cfg.n_items, maskFilter tr_idx pre.2.rowsE⟩)

/-- `DataReader.load_train_data` (lines 196-210): shape
`(max uid + 1, n_items)`, no row shift and no pruning. -/
def loadTrainM (cfg : ReaderCfg) (tbl : List CsvRow) : SpMat :=
  buildCsr (tripletsOf cfg tbl 0) (maxL (tbl.map (fun t => t.1)) + 1) cfg.n_items

/-- The reader's environment: its configuration and the contents of
the persisted csv files of the processed directory, by file name. -/
structure ReaderEnv where
  cfg : ReaderCfg
  file : String → List CsvRow

/-- Result of `DataReader.load_data`: one matrix (train / full) or a
(tr, te) pair (validation / test). -/
inductive LoadOut where
  | single : SpMat → LoadOut
  | pair : SpMat → SpMat → LoadOut
deriving DecidableEq

/-- Sparse matrix addition `val_tr + val_te` (row-aligned operands):
the stored entries of each row are merged. -/
def matAdd (a b : SpMat) : SpMat :=
  ⟨a.ncols, (a.rowsE.zip b.rowsE).map (fun p => p.1 ++ p.2)⟩

/-- `sparse.vstack`: row-wise concatenation. -/
def vstackM (ms : List SpMat) : SpMat :=
  ⟨(ms.map (fun m => m.ncols)).headD 0, (ms.map (fun m => m.rowsE)).flatten⟩

/-- `DataReader.load_train_data()` together with the partition file it
reads. -/
def load_train_data (env : ReaderEnv) : SpMat × List String :=
  (loadTrainM env.cfg (env.file "train.csv"), ["train.csv"])

/-- `DataReader.load_train_test_data(datatype)` together with the two
partition files it reads. -/
def load_train_test_data (env : ReaderEnv) (datatype : String) :
    (SpMat × SpMat) × List String :=
  (loadTT env.cfg (env.file (datatype ++ "_tr.csv")) (env.file (datatype ++ "_te.csv")),
   [datatype ++ "_tr.csv", datatype ++ "_te.csv"])

/-- `DataReader.load_data(datatype)` (lines 172-187): dispatch on the
datatype string; `full` stacks train, `validation_tr + validation_te`
and `test_tr + test_te`; any other string raises `ValueError` before
reading any partition file.  The second component records which
partition files were read. -/
def load_data (env : ReaderEnv) (datatype : String) :
    Except String LoadOut × List String :=
  if datatype = "train" then
    (Except.ok (LoadOut.single (load_train_data env).1), (load_train_data env).2)
  else if datatype = "validation" then
    (Except.ok (LoadOut.pair (load_train_test_data env datatype).1.1
      (load_train_test_data env datatype).1.2), (load_train_test_data env datatype).2)
  else if datatype = "test" then
    (Except.ok (LoadOut.pair (load_train_test_data env datatype).1.1
      (load_train_test_data env datatype).1.2), (load_train_test_data env datatype).2)
  else if datatype = "full" then
    (Except.ok (LoadOut.single (vstackM
      [(load_train_data env).1,
       matAdd (load_train_test_data env "validation").1.1
         (load_train_test_data env "validation").1.2,
       matAdd (load_train_test_data env "test").1.1
         (load_train_test_data env "test").1.2])),
     (load_train_data env).2 ++ (load_train_test_data env "validation").2 ++
       (load_train_test_data env "test").2)
  else
    (Except.error "Parameter datatype should be in [train, validation, test, full]", [])

/-- Concrete reader environment used in witnesses. -/
def env0 : ReaderEnv := ⟨⟨true, 1⟩, fun _ => []⟩

/-! ### Pipeline: `DataProcessing.process` -/

/-- The configuration fields consumed by `DataProcessing.process`. -/
structure Config where
  seed : Nat
  threshold : Option Nat
  i_min : Nat
  u_min : Nat
  heldout : Nat
  test_prop : ℚ
  topn : Bool

/-- Python slice index resolution: a negative index counts from the
end, and the result is clamped to `[0, n]`. -/
def pyIdx (n : Nat) (i : Int) : Nat :=
  if i < 0 then (i + n).toNat else Nat.min i.toNat n

/-- Python list slice `l[i:j]`. -/
def pySlice {α : Type} (l : List α) (i j : Int) : List α :=
  (l.drop (pyIdx l.length i)).take (pyIdx l.length j - pyIdx l.length i)

/-- Lines 34-35: optional strict threshold filter on the third raw
column. -/
def rawFiltered (cfg : Config) (rows : List Row) : List Row :=
  match cfg.threshold with
  | some t => rows.filter (fun r => t < valueOf r)
  | none => rows

/-- Line 39: the retained table returned by `filter`. -/
def procRetained (cfg : Config) (rawT : Table) : List Row :=
  (filterTbl (rawFiltered cfg rawT.rows) cfg.u_min cfg.i_min).1

/-- Line 41: `unique_uid = user_activity.index`, the sorted distinct
retained users. -/
def procUsers0 (cfg : Config) (rawT : Table) : List Nat :=
  ((filterTbl (rawFiltered cfg rawT.rows) cfg.u_min cfg.i_min).2.1).map (fun p => p.1)

/-- Lines 27 and 42: `np.random.seed(seed)` (overwriting whatever
generator state was inherited), then
`idx_perm = np.random.permutation(unique_uid.size)`. -/
def procPerm {σ : Type} (ops : RngOps σ) (cfg : Config) (rawT : Table) : List Nat × σ :=
  ops.permFn (ops.seedFn cfg.seed) (procUsers0 cfg rawT).length

/-- Line 43: `unique_uid = unique_uid[idx_perm]`. -/
def procUniqueUid {σ : Type} (ops : RngOps σ) (cfg : Config) (rawT : Table) : List Nat :=
  (procPerm ops cfg rawT).1.map (fun i => (procUsers0 cfg rawT).getD i 0)

/-- Line 48: `tr_users = unique_uid[:(n_users - n_heldout * 2)]`. -/
def procTrUsers {σ : Type} (ops : RngOps σ) (cfg : Config) (rawT : Table) : List Nat :=
  let uu := procUniqueUid ops cfg rawT
  pySlice uu 0 ((uu.length : Int) - 2 * cfg.heldout)

/-- Line 49: `vd_users = unique_uid[(n_users - n_heldout * 2):
(n_users - n_heldout)]`. -/
def procVdUsers {σ : Type} (ops : RngOps σ) (cfg : Config) (rawT : Table) : List Nat :=
  let uu := procUniqueUid ops cfg rawT
  pySlice uu ((uu.length : Int) - 2 * cfg.heldout) ((uu.length : Int) - cfg.heldout)

/-- Line 50: `te_users = unique_uid[(n_users - n_heldout):]`. -/
def procTeUsers {σ : Type} (ops : RngOps σ) (cfg : Config) (rawT : Table) : List Nat :=
  let uu := procUniqueUid ops cfg rawT
  pySlice uu ((uu.length : Int) - cfg.heldout) (uu.length : Int)

/-- Line 53: the training slice of the retained table. -/
def procTrainData {σ : Type} (ops : RngOps σ) (cfg : Config) (rawT : Table) : List Row :=
  (procRetained cfg rawT).filter (fun r => userOf r ∈ procTrUsers ops cfg rawT)

/-- Line 54: `unique_iid = pd.unique(train_data[ihead])`, the item
vocabulary in first-seen order. -/
def procUniqueIid {σ : Type} (ops : RngOps σ) (cfg : Config) (rawT : Table) : List Nat :=
  uniqueFirst ((procTrainData ops cfg rawT).map itemOf)

/-- Lines 57-58 and 62-64: validation rows = rows of the validation
users, restricted to the training item vocabulary, then restricted to
users with at least 2 such rows. -/
def procValData {σ : Type} (ops : RngOps σ) (cfg : Config) (rawT : Table) : List Row :=
  let v1 := ((procRetained cfg rawT).filter
      (fun r => userOf r ∈ procVdUsers ops cfg rawT)).filter
    (fun r => itemOf r ∈ procUniqueIid ops cfg rawT)
  v1.filter (fun r => 2 ≤ countBy v1 userOf (userOf r))

/-- Lines 59-60 and 63-65: the same for the test users. -/
def procTestData {σ : Type} (ops : RngOps σ) (cfg : Config) (rawT : Table) : List Row :=
  let t1 := ((procRetained cfg rawT).filter
      (fun r => userOf r ∈ procTeUsers ops cfg rawT)).filter
    (fun r => itemOf r ∈ procUniqueIid ops cfg rawT)
  t1.filter (fun r => 2 ≤ countBy t1 userOf (userOf r))

/-- Line 67: `split_train_test(val_data)`, entered with the generator
state left by the permutation and re-seeding internally. -/
def procValSplit {σ : Type} (ops : RngOps σ) (cfg : Config) (rawT : Table) :
    (List Row × List Row) × σ :=
  split_train_test ops (procPerm ops cfg rawT).2 cfg.seed cfg.test_prop
    (procValData ops cfg rawT)

/-- Line 68: `split_train_test(test_data)`, entered with the generator
state left by the validation split and re-seeding internally. -/
def procTestSplit {σ : Type} (ops : RngOps σ) (cfg : Config) (rawT : Table) :
    (List Row × List Row) × σ :=
  split_train_test ops (procValSplit ops cfg rawT).2 cfg.seed cfg.test_prop
    (procTestData ops cfg rawT)

/-- Lines 70-72: `us = val_us + te_us`, the sorted user lists of the
two held-out partitions. -/
def procUs {σ : Type} (ops : RngOps σ) (cfg : Config) (rawT : Table) : List Nat :=
  keysOf (procValData ops cfg rawT) userOf ++ keysOf (procTestData ops cfg rawT) userOf

/-- Lines 74-77: remove from `unique_uid` (via repeated
`list.remove`, first occurrence each) every user past the train slice
that appears in neither held-out partition. -/
def procUniqueUidFinal {σ : Type} (ops : RngOps σ) (cfg : Config) (rawT : Table) :
    List Nat :=
  let uu := procUniqueUid ops cfg rawT
  let todel := (uu.drop (procTrUsers ops cfg rawT).length).filter
    (fun u => u ∉ procUs ops cfg rawT)
  todel.foldl (fun l u => l.erase u) uu

/-- Line 80: `u2id = dict((uid, i) for (i, uid) in enumerate(unique_uid))`. -/
def proc_u2id {σ : Type} (ops : RngOps σ) (cfg : Config) (rawT : Table) :
    Nat → Option Nat :=
  dictLookup (procUniqueUidFinal ops cfg rawT)

/-- Line 79: `i2id = dict((iid, i) for (i, iid) in enumerate(unique_iid))`. -/
def proc_i2id {σ : Type} (ops : RngOps σ) (cfg : Config) (rawT : Table) :
    Nat → Option Nat :=
  dictLookup (procUniqueIid ops cfg rawT)

/-- Line 96: the numerized training table. -/
def procTrainTable {σ : Type} (ops : RngOps σ) (cfg : Config) (rawT : Table) :
    Option Table :=
  numerize cfg.topn ⟨rawT.cols, procTrainData ops cfg rawT⟩
    (proc_u2id ops cfg rawT) (proc_i2id ops cfg rawT)

/-- Line 97: the numerized `validation_tr` table. -/
def procValTrTable {σ : Type} (ops : RngOps σ) (cfg : Config) (rawT : Table) :
    Option Table :=
  numerize cfg.topn ⟨rawT.cols, (procValSplit ops cfg rawT).1.1⟩
    (proc_u2id ops cfg rawT) (proc_i2id ops cfg rawT)

/-- Line 98: the numerized `validation_te` table. -/
def procValTeTable {σ : Type} (ops : RngOps σ) (cfg : Config) (rawT : Table) :
    Option Table :=
  numerize cfg.topn ⟨rawT.cols, (procValSplit ops cfg rawT).1.2⟩
    (proc_u2id ops cfg rawT) (proc_i2id ops cfg rawT)

/-- Line 99: the numerized `test_tr` table. -/
def procTestTrTable {σ : Type} (ops : RngOps σ) (cfg : Config) (rawT : Table) :
    Option Table :=
  numerize cfg.topn ⟨rawT.cols, (procTestSplit ops cfg rawT).1.1⟩
    (proc_u2id ops cfg rawT) (proc_i2id ops cfg rawT)

/-- Line 100: the numerized `test_te` table. -/
def procTestTeTable {σ : Type} (ops : RngOps σ) (cfg : Config) (rawT : Table) :
    Option Table :=
  numerize cfg.topn ⟨rawT.cols, (procTestSplit ops cfg rawT).1.2⟩
    (proc_u2id ops cfg rawT) (proc_i2id ops cfg rawT)

/-- Everything `DataProcessing.process` persists: the two id lists
(`unique_uid.txt`, `unique_iid.txt`) and the five tables. -/
structure PipeOut where
  unique_uid : List Nat
  unique_iid : List Nat
  train : Option Table
  val_tr : Option Table
  val_te : Option Table
  test_tr : Option Table
  test_te : Option Table
deriving DecidableEq, Repr

/-- `DataProcessing.process()` (lines 26-108).  `st0` is the ambient
generator state inherited from before the call; the very first
statement of `process` is `np.random.seed(self.cfg.seed)`, so `st0` is
overwritten before any random draw (each later randomised call site
re-seeds in the same way), which is what makes the pipeline a function
of seed, input table, and configuration alone. -/
def process {σ : Type} (ops : RngOps σ) (st0 : σ) (cfg : Config) (rawT : Table) :
    PipeOut where
  unique_uid := procUniqueUidFinal ops cfg rawT
  unique_iid := procUniqueIid ops cfg rawT
  train := procTrainTable ops cfg rawT
  val_tr := procValTrTable ops cfg rawT
  val_te := procValTeTable ops cfg rawT
  test_tr := procTestTrTable ops cfg rawT
  test_te := procTestTeTable ops cfg rawT

/-- Concrete configuration used in witnesses: seed 7, no threshold,
no minimum-count filtering, one held-out user per partition,
`test_prop = 1/5`, top-N mode. -/
def cfg0 : Config := ⟨7, none, 0, 0, 1, mkRat 1 5, true⟩

/-- Concrete raw table used in witnesses: users 1, 2, 3, each rating
items 10 and 11. -/
def raw0 : Table :=
  ⟨["u", "i", "r"], [[1, 10, 3], [1, 11, 4], [2, 10, 5], [2, 11, 2], [3, 10, 1], [3, 11, 5]]⟩

/-! ### Counting lemmas -/

theorem countBy_filter_key (l : List Row) (key : Row → Nat) (p : Nat → Prop)
    [DecidablePred p] (k : Nat) (hk : p k) :
    countBy (l.filter (fun r => p (key r))) key k = countBy l key k := by
  unfold countBy
  rw [List.filter_filter]
  congr 1
  apply List.filter_congr
  intro r _
  by_cases h : key r = k
  · simp [h, hk]
  · simp [h]

theorem mem_itemPruned (l : List Row) (mi : Nat) : ∀ r ∈ itemPruned l mi, r ∈ l := by
  intro r hr
  unfold itemPruned at hr
  split at hr
  · exact (List.mem_filter.mp hr).1
  · exact hr

/-- C1, user half: a user surviving `filter` keeps all of its rows, so
its count on the returned table still meets the threshold. -/
theorem userPruned_count (l : List Row) (mu : Nat) :
    ∀ r ∈ userPruned l mu, mu ≤ countBy (userPruned l mu) userOf (userOf r) := by
  intro r hr
  unfold userPruned at hr ⊢
  split at hr
  case isTrue h =>
    have hmem := List.mem_filter.mp hr
    have hcnt : mu ≤ countBy l userOf (userOf r) := by
      simpa using hmem.2
    simp only [if_pos h]
    rw [countBy_filter_key l userOf (fun v => mu ≤ countBy l userOf v) (userOf r) hcnt]
    exact hcnt
  case isFalse h =>
    simp only [if_neg h]
    omega

theorem itemPruned_count (l : List Row) (mi : Nat) :
    ∀ r ∈ itemPruned l mi, mi ≤ countBy (itemPruned l mi) itemOf (itemOf r) := by
  intro r hr
  unfold itemPruned at hr ⊢
  split at hr
  case isTrue h =>
    have hmem := List.mem_filter.mp hr
    have hcnt : mi ≤ countBy l itemOf (itemOf r) := by
      simpa using hmem.2
    simp only [if_pos h]
    rw [countBy_filter_key l itemOf (fun v => mi ≤ countBy l itemOf v) (itemOf r) hcnt]
    exact hcnt
  case isFalse h =>
    simp only [if_neg h]
    omega

/-- C1 (counterexample): on the table
`[(u1,i1), (u1,i2), (u2,i1), (u3,i2), (u3,i3), (u1,i3)]` with
`u_min = i_min = 2`, no item is pruned (all items occur twice) but
user `u2` is pruned, leaving item `i1` with a single occurrence in the
returned table — the item threshold does not hold on the returned
table, refuting the claimed joint invariant. -/
theorem filter_item_threshold_fails :
    ¬ (∀ r ∈ (filterTbl [[1, 1], [1, 2], [2, 1], [3, 2], [3, 3], [1, 3]] 2 2).1,
        2 ≤ countBy (filterTbl [[1, 1], [1, 2], [2, 1], [3, 2], [3, 3], [1, 3]] 2 2).1
              itemOf (itemOf r)) := by
  decide

/-- C1 (amended): after `filter(data, u_min, i_min)` every user of the
returned table occurs at least `u_min` times in the returned table,
and every item of the returned table occurred at least `i_min` times
in the intermediate table produced by the item-pruning step; the item
threshold need not hold on the returned table itself. -/
theorem filter_thresholds_amended (l : List Row) (mu mi : Nat) :
    (∀ r ∈ (filterTbl l mu mi).1, mu ≤ countBy (filterTbl l mu mi).1 userOf (userOf r)) ∧
    (∀ r ∈ (filterTbl l mu mi).1, mi ≤ countBy (itemPruned l mi) itemOf (itemOf r)) := by
  constructor
  · intro r hr
    exact userPruned_count (itemPruned l mi) mu r hr
  · intro r hr
    have hr1 : r ∈ itemPruned l mi := by
      unfold filterTbl at hr
      unfold userPruned at hr
      split at hr
      · exact (List.mem_filter.mp hr).1
      · exact hr
    exact itemPruned_count l mi r hr1

theorem dictLookup_eq_some {l : List Nat} {x i : Nat} (h : dictLookup l x = some i) :
    i < l.length ∧ l.getD i 0 = x := by
  induction l generalizing i with
  | nil => simp [dictLookup] at h
  | cons a l ih =>
    unfold dictLookup at h
    cases hrec : dictLookup l x with
    | some j =>
      rw [hrec] at h
      obtain ⟨hj, hg⟩ := ih hrec
      cases h
      exact ⟨by simpa using Nat.succ_lt_succ hj, by simpa using hg⟩
    | none =>
      rw [hrec] at h
      by_cases hax : a = x
      · simp only [if_pos hax] at h
        cases h
        simpa using hax
      · simp [if_neg hax] at h

theorem dictLookup_isSome_of_mem {l : List Nat} {x : Nat} (h : x ∈ l) :
    (dictLookup l x).isSome := by
  induction l with
  | nil => simp at h
  | cons a l ih =>
    unfold dictLookup
    cases hrec : dictLookup l x with
    | some j => simp
    | none =>
      rcases List.mem_cons.mp h with h1 | h2
      · simp [h1.symm]
      · have := ih h2
        rw [hrec] at this
        simp at this

theorem mapO_some_mem {α β : Type} {f : α → Option β} {l : List α} {ys : List β}
    (h : mapO f l = some ys) : ∀ y ∈ ys, ∃ x ∈ l, f x = some y := by
  induction l generalizing ys with
  | nil =>
    simp only [mapO] at h
    cases h
    simp
  | cons a l ih =>
    unfold mapO at h
    cases ha : f a with
    | none => rw [ha] at h; cases h
    | some b =>
      cases hl : mapO f l with
      | none => rw [ha, hl] at h; cases h
      | some bs =>
        rw [ha, hl] at h
        cases h
        intro y hy
        rcases List.mem_cons.mp hy with h1 | h2
        · exact ⟨a, List.mem_cons_self a l, h1 ▸ ha⟩
        · obtain ⟨x, hx, hfx⟩ := ih hl y h2
          exact ⟨x, List.mem_cons_of_mem a hx, hfx⟩

theorem mapO_isSome {α β : Type} {f : α → Option β} {l : List α}
    (h : ∀ x ∈ l, (f x).isSome) : (mapO f l).isSome := by
  induction l with
  | nil => simp [mapO]
  | cons a l ih =>
    unfold mapO
    cases ha : f a with
    | none =>
      have := h a (List.mem_cons_self a l)
      rw [ha] at this
      simp at this
    | some b =>
      have hrest := ih (fun x hx => h x (List.mem_cons_of_mem a hx))
      cases hl : mapO f l with
      | none => rw [hl] at hrest; simp at hrest
      | some bs => simp

theorem mapO_none {α β : Type} {f : α → Option β} {l : List α}
    (h : ∃ x ∈ l, f x = none) : mapO f l = none := by
  obtain ⟨x, hx, hfx⟩ := h
  induction l with
  | nil => simp at hx
  | cons a l ih =>
    unfold mapO
    rcases List.mem_cons.mp hx with h1 | h2
    · rw [h1] at hfx
      rw [hfx]
    · rw [ih h2]
      cases f a <;> rfl

/-- `numerize` succeeds when every user and item id of the table is
present in its dictionary. -/
theorem numerize_isSome (topn : Bool) (t : Table) (u2id i2id : Nat → Option Nat)
    (h : ∀ r ∈ t.rows, (u2id (userOf r)).isSome ∧ (i2id (itemOf r)).isSome) :
    (numerize topn t u2id i2id).isSome := by
  unfold numerize
  have hu := mapO_isSome (f := fun r => u2id (userOf r)) (l := t.rows)
    (fun r hr => (h r hr).1)
  have hi := mapO_isSome (f := fun r => i2id (itemOf r)) (l := t.rows)
    (fun r hr => (h r hr).2)
  cases h1 : mapO (fun r => u2id (userOf r)) t.rows with
  | none => rw [h1] at hu; simp at hu
  | some uid =>
    cases h2 : mapO (fun r => i2id (itemOf r)) t.rows with
    | none => rw [h2] at hi; simp at hi
    | some iid =>
      cases topn <;> simp [h1, h2, pure]

/-- `numerize` fails (the dict lookup raises) as soon as one id of the
table is missing from its dictionary. -/
theorem numerize_none (topn : Bool) (t : Table) (u2id i2id : Nat → Option Nat)
    (h : ∃ r ∈ t.rows, u2id (userOf r) = none ∨ i2id (itemOf r) = none) :
    numerize topn t u2id i2id = none := by
  unfold numerize
  obtain ⟨r, hr, hcase⟩ := h
  cases h1 : mapO (fun r => u2id (userOf r)) t.rows with
  | none => rfl
  | some uid =>
    rcases hcase with hu | hi
    · have := mapO_none (f := fun r => u2id (userOf r)) ⟨r, hr, hu⟩
      rw [h1] at this
      cases this
    · have h2 := mapO_none (f := fun r => i2id (itemOf r)) ⟨r, hr, hi⟩
      simp [h2]

/-- Every item id of a `numerize` output is the image under `i2id` of
an item id of a row of the input table. -/
theorem numerize_some_item {topn : Bool} {t : Table} {u2id i2id : Nat → Option Nat}
    {t' : Table} (h : numerize topn t u2id i2id = some t') :
    ∀ r' ∈ t'.rows, ∃ r ∈ t.rows, i2id (itemOf r) = some (itemOf r') := by
  unfold numerize at h
  cases h1 : mapO (fun r => u2id (userOf r)) t.rows with
  | none => rw [h1] at h; cases h
  | some uid =>
    cases h2 : mapO (fun r => i2id (itemOf r)) t.rows with
    | none => rw [h1, h2] at h; cases h
    | some iid =>
      rw [h1, h2] at h
      intro r' hr'
      cases topn with
      | true =>
        simp only [if_pos, Option.bind_eq_bind, Option.bind_some, pure, if_true] at h
        cases h
        simp only [List.mem_map] at hr'
        obtain ⟨p, hp, hpr⟩ := hr'
        have hmem := List.of_mem_zip hp
        have : itemOf r' = p.2 := by
          rw [← hpr]
          rfl
        rw [this]
        exact mapO_some_mem h2 p.2 hmem.2
      | false =>
        simp only [Option.bind_eq_bind, Option.bind_some, pure, if_false, Bool.false_eq_true] at h
        cases h
        simp only [List.mem_map] at hr'
        obtain ⟨p, hp, hpr⟩ := hr'
        have hmem1 := List.of_mem_zip hp
        have hmem := List.of_mem_zip hmem1.1
        have : itemOf r' = p.1.2 := by
          rw [← hpr]
          rfl
        rw [this]
        exact mapO_some_mem h2 p.1.2 hmem.2

theorem mapO_total {α β : Type} (f : α → β) (l : List α) :
    mapO (fun x => some (f x)) l = some (l.map f) := by
  induction l with
  | nil => simp [mapO]
  | cons a l ih => unfold mapO; rw [ih]; rfl

/-- C8: applying `numerize` to an already-numerized table (first two
columns named `uid`/`iid`; in top-N mode exactly those two columns)
with identity id maps returns the table unchanged, in both top-N and
rated mode. -/
theorem numerize_identity_idempotent (topn : Bool) (t : Table)
    (hcols : t.cols.take 2 = ["uid", "iid"])
    (hrows : ∀ r ∈ t.rows, 2 ≤ r.length)
    (htopn : topn = true → t.cols.length = 2 ∧ ∀ r ∈ t.rows, r.length = 2) :
    numerize topn t (fun x => some x) (fun x => some x) = some t := by
  obtain ⟨tc, trw⟩ := t
  dsimp only at hcols hrows htopn
  unfold numerize
  dsimp only
  rw [mapO_total userOf trw, mapO_total itemOf trw]
  simp only [Option.bind_eq_bind, Option.some_bind]
  rw [List.zip_map' userOf itemOf trw]
  cases topn with
  | true =>
    obtain ⟨hlen2, hrow2⟩ := htopn rfl
    rw [if_pos rfl]
    refine congrArg some ?_
    have hc : tc = ["uid", "iid"] := by
      rw [← hcols]
      exact (List.take_of_length_le (by omega)).symm
    have hr : (trw.map (fun r => (userOf r, itemOf r))).map (fun p => [p.1, p.2]) = trw := by
      rw [List.map_map]
      conv_rhs => rw [← List.map_id trw]
      apply List.map_congr_left
      intro r hmem
      have h2 := hrow2 r hmem
      cases r with
      | nil => simp at h2
      | cons a r' =>
        cases r' with
        | nil => simp at h2
        | cons b rest =>
          simp only [List.length_cons] at h2
          have : rest = [] := by
            cases rest with
            | nil => rfl
            | cons c cs => simp at h2
          subst this
          rfl
    rw [hr, hc]
  | false =>
    rw [if_neg (by decide)]
    refine congrArg some ?_
    have hc : tc = "uid" :: "iid" :: tc.drop 2 := by
      cases tc with
      | nil => simp at hcols
      | cons c0 cs =>
        cases cs with
        | nil => simp at hcols
        | cons c1 cs' =>
          have h01 : c0 = "uid" ∧ c1 = "iid" := by simpa using hcols
          simp [h01.1, h01.2]
    have hr : ((trw.map (fun r => (userOf r, itemOf r))).zip
          (trw.map (fun r => r.drop 2))).map (fun p => p.1.1 :: p.1.2 :: p.2) = trw := by
      rw [List.zip_map' (fun r => (userOf r, itemOf r)) (fun r => r.drop 2) trw, List.map_map]
      conv_rhs => rw [← List.map_id trw]
      apply List.map_congr_left
      intro r hmem
      have h2 := hrows r hmem
      cases r with
      | nil => simp at h2
      | cons a r' =>
        cases r' with
        | nil => simp at h2
        | cons b rest => rfl
    simp only [List.cons_append, List.nil_append]
    rw [hr, ← hc]

/-- Witness for C8 on a concrete already-numerized two-column table. -/
theorem numerize_identity_idempotent_witness :
    (Table.mk ["uid", "iid"] [[4, 5]]).cols.take 2 = ["uid", "iid"] ∧
    (∀ r ∈ (Table.mk ["uid", "iid"] [[4, 5]]).rows, 2 ≤ r.length) ∧
    numerize true (Table.mk ["uid", "iid"] [[4, 5]]) (fun x => some x) (fun x => some x) =
      some (Table.mk ["uid", "iid"] [[4, 5]]) :=
  ⟨rfl, by decide,
    numerize_identity_idempotent true (Table.mk ["uid", "iid"] [[4, 5]])
      rfl (by decide) (fun _ => ⟨rfl, by decide⟩)⟩

/-- C9: `numerize` fails with a lookup error exactly when some user or
item external id of the table is absent from the given map, and
succeeds when every id is present. -/
theorem numerize_lookup_behaviour (topn : Bool) (t : Table) (u2id i2id : Nat → Option Nat) :
    ((∃ r ∈ t.rows, u2id (userOf r) = none ∨ i2id (itemOf r) = none) →
      numerize topn t u2id i2id = none) ∧
    ((∀ r ∈ t.rows, (u2id (userOf r)).isSome ∧ (i2id (itemOf r)).isSome) →
      (numerize topn t u2id i2id).isSome) :=
  ⟨numerize_none topn t u2id i2id, numerize_isSome topn t u2id i2id⟩

/-- Witness for C9: a table whose item id is missing from the item map
makes `numerize` fail; with total maps it succeeds. -/
theorem numerize_lookup_behaviour_witness :
    numerize true (Table.mk ["u", "i"] [[3, 4]]) (fun x => some x) (fun _ => none) = none ∧
    (numerize true (Table.mk ["u", "i"] [[3, 4]]) (fun x => some x) (fun x => some x)).isSome :=
  ⟨(numerize_lookup_behaviour true (Table.mk ["u", "i"] [[3, 4]]) (fun x => some x)
      (fun _ => none)).1 ⟨[3, 4], by decide, Or.inr rfl⟩,
   (numerize_lookup_behaviour true (Table.mk ["u", "i"] [[3, 4]]) (fun x => some x)
      (fun x => some x)).2 (fun r _ => ⟨rfl, rfl⟩)⟩

/-- Witness for C1's amended theorem at the counterexample table. -/
theorem filter_thresholds_amended_witness :
    (∀ r ∈ (filterTbl [[1, 1], [1, 2], [2, 1], [3, 2], [3, 3], [1, 3]] 2 2).1,
        2 ≤ countBy (filterTbl [[1, 1], [1, 2], [2, 1], [3, 2], [3, 3], [1, 3]] 2 2).1
              userOf (userOf r)) ∧
    (∀ r ∈ (filterTbl [[1, 1], [1, 2], [2, 1], [3, 2], [3, 3], [1, 3]] 2 2).1,
        2 ≤ countBy (itemPruned [[1, 1], [1, 2], [2, 1], [3, 2], [3, 3], [1, 3]] 2)
              itemOf (itemOf r)) :=
  filter_thresholds_amended [[1, 1], [1, 2], [2, 1], [3, 2], [3, 3], [1, 3]] 2 2

/-! ### Splitter lemmas -/

theorem map_snd_enumFrom {α : Type} (l : List α) (n : Nat) :
    (l.enumFrom n).map Prod.snd = l := by
  induction l generalizing n with
  | nil => rfl
  | cons a l ih => simp [List.enumFrom_cons, ih]

theorem length_filter_enumFrom {α : Type} (q : Nat → Bool) (l : List α) (n : Nat) :
    ((l.enumFrom n).filter (fun p => q p.1)).length
      = ((List.range' n l.length).filter q).length := by
  induction l generalizing n with
  | nil => rfl
  | cons a l ih =>
    simp only [List.enumFrom_cons, List.length_cons, List.range'_succ, List.filter_cons]
    cases hq : q n <;> simp [hq, ih (n + 1)]

theorem length_filter_range'_mem (chosen : List Nat) (k : Nat)
    (hnd : chosen.Nodup) (hlt : ∀ i ∈ chosen, i < k) :
    ((List.range' 0 k).filter (fun i => decide (i ∈ chosen))).length = chosen.length := by
  have h1 : List.Subperm ((List.range' 0 k).filter (fun i => decide (i ∈ chosen))) chosen := by
    apply List.subperm_of_subset ((List.nodup_range' 0 k).filter _)
    intro x hx
    have := List.mem_filter.mp hx
    simpa using this.2
  have h2 : List.Subperm chosen ((List.range' 0 k).filter (fun i => decide (i ∈ chosen))) := by
    apply List.subperm_of_subset hnd
    intro x hx
    apply List.mem_filter.mpr
    constructor
    · exact List.mem_range'_1.mpr ⟨Nat.zero_le x, by simpa using hlt x hx⟩
    · simpa using hx
  exact Nat.le_antisymm h1.length_le h2.length_le

theorem szOf_eq_floor (tp : ℚ) (k : Nat) (htp : 0 ≤ tp) :
    szOf tp k = max (Int.toNat ⌊tp * k⌋) 1 := by
  unfold szOf pyInt
  rw [if_neg (not_lt.mpr (mul_nonneg htp (by positivity)))]

/-- C4: for a user group with `k > 1` interactions processed by
`split_train_test`'s loop body, under the `np.random.choice` contract
(the chosen index list has the requested size, is duplicate-free —
`replace=False` — and stays below `k`), the held-out "te" slice has
exactly `max(floor(test_prop * k), 1)` rows, the "tr" slice has
exactly the remaining `k - max(floor(test_prop * k), 1)` rows, and
together they are a permutation of the group. -/
theorem splitGroup_proportion {σ : Type} (ops : RngOps σ) (st : σ) (tp : ℚ)
    (group : List Row) (hk : 1 < group.length) (htp : 0 ≤ tp)
    (hlen : (ops.choiceFn st group.length (szOf tp group.length)).1.length
        = szOf tp group.length)
    (hnd : (ops.choiceFn st group.length (szOf tp group.length)).1.Nodup)
    (hlt : ∀ i ∈ (ops.choiceFn st group.length (szOf tp group.length)).1,
        i < group.length) :
    (splitGroup ops st tp group).2.1.length = max (Int.toNat ⌊tp * group.length⌋) 1 ∧
    (splitGroup ops st tp group).1.length
        = group.length - max (Int.toNat ⌊tp * group.length⌋) 1 ∧
    ((splitGroup ops st tp group).1 ++ (splitGroup ops st tp group).2.1).Perm group := by
  unfold splitGroup
  rw [if_pos hk]
  dsimp only
  set chosen := (ops.choiceFn st group.length (szOf tp group.length)).1 with hch
  have hte : ((group.enum.filter (fun p => decide (p.1 ∈ chosen))).map
      (fun p => p.2)).length = chosen.length := by
    rw [List.length_map]
    have heq := length_filter_enumFrom (fun i => decide (i ∈ chosen)) group 0
    rw [show group.enum = group.enumFrom 0 from rfl, heq]
    exact length_filter_range'_mem chosen group.length hnd hlt
  have hperm : ((group.enum.filter (fun p => decide (p.1 ∉ chosen))).map (fun p => p.2) ++
      (group.enum.filter (fun p => decide (p.1 ∈ chosen))).map (fun p => p.2)).Perm group := by
    rw [← List.map_append]
    have hnotq : (group.enum.filter (fun p => decide (p.1 ∉ chosen)))
        = group.enum.filter (fun p => !decide (p.1 ∈ chosen)) := by
      simp only [decide_not]
    rw [hnotq]
    have hfp := List.filter_append_perm (fun p : Nat × Row => decide (p.1 ∈ chosen)) group.enum
    have hcomm : (group.enum.filter (fun p => !decide (p.1 ∈ chosen)) ++
        group.enum.filter (fun p : Nat × Row => decide (p.1 ∈ chosen))).Perm group.enum :=
      List.Perm.trans List.perm_append_comm hfp
    have := hcomm.map (fun p : Nat × Row => p.2)
    refine this.trans ?_
    rw [show group.enum = group.enumFrom 0 from rfl]
    rw [show (fun p : Nat × Row => p.2) = Prod.snd from rfl, map_snd_enumFrom]
  refine ⟨?_, ?_, hperm⟩
  · rw [hte, hlen, szOf_eq_floor tp group.length htp]
  · have hlen2 := hperm.length_eq
    rw [List.length_append, hte, hlen, szOf_eq_floor tp group.length htp] at hlen2
    omega

/-- Witness for C4 on a two-interaction group with `test_prop = 1/5`:
the held-out size is `max(floor(2/5), 1) = 1`. -/
theorem splitGroup_proportion_witness :
    1 < ([[2, 10, 5], [2, 11, 2]] : List Row).length ∧
    0 ≤ mkRat 1 5 ∧
    (splitGroup ops0 () (mkRat 1 5) [[2, 10, 5], [2, 11, 2]]).2.1.length
      = max (Int.toNat ⌊mkRat 1 5 * (([[2, 10, 5], [2, 11, 2]] : List Row).length : ℚ)⌋) 1 ∧
    ((splitGroup ops0 () (mkRat 1 5) [[2, 10, 5], [2, 11, 2]]).1 ++
      (splitGroup ops0 () (mkRat 1 5) [[2, 10, 5], [2, 11, 2]]).2.1).Perm
      [[2, 10, 5], [2, 11, 2]] := by
  have h := splitGroup_proportion ops0 () (mkRat 1 5) [[2, 10, 5], [2, 11, 2]]
    (by decide) (by decide) (by decide) (by decide) (by decide)
  exact ⟨by decide, by decide, h.1, h.2.2⟩

/-! ### Reader lemmas -/

theorem maskFilter_cons {α : Type} (b : Bool) (m : List Bool) (a : α) (t : List α) :
    maskFilter (b :: m) (a :: t) = if b then a :: maskFilter m t else maskFilter m t := by
  unfold maskFilter
  simp only [List.zip_cons_cons, List.filter_cons]
  cases b <;> simp

theorem maskFilter_length_congr {α β : Type} (m : List Bool) (l1 : List α) (l2 : List β)
    (h : l1.length = l2.length) : (maskFilter m l1).length = (maskFilter m l2).length := by
  induction m generalizing l1 l2 with
  | nil => rfl
  | cons b mt ih =>
    cases l1 with
    | nil =>
      cases l2 with
      | nil => rfl
      | cons a2 t2 => simp at h
    | cons a1 t1 =>
      cases l2 with
      | nil => simp at h
      | cons a2 t2 =>
        rw [maskFilter_cons, maskFilter_cons]
        have ht : t1.length = t2.length := by simpa using h
        cases b
        · simpa using ih t1 t2 ht
        · simpa using ih t1 t2 ht

theorem maskFilter_map_self {α : Type} (p : α → Bool) (l : List α) :
    maskFilter (l.map p) l = l.filter p := by
  induction l with
  | nil => rfl
  | cons a t ih =>
    rw [List.map_cons, maskFilter_cons, List.filter_cons]
    cases p a <;> simp [ih]

/-- C5: for the reader's validation/test output, the two matrices have
the same shape — both before pruning (max uid − min uid + 1 rows over
the shared origin) and after pruning with the common tr-derived mask —
and every remaining tr row has at least one stored entry. -/
theorem load_tt_aligned (cfg : ReaderCfg) (ttr tte : List CsvRow)
    (h1 : ttr ≠ []) (h2 : tte ≠ []) :
    (loadTT cfg ttr tte).1.ncols = (loadTT cfg ttr tte).2.ncols ∧
    (loadTTpre cfg ttr tte).1.rowsE.length = (loadTTpre cfg ttr tte).2.rowsE.length ∧
    (loadTT cfg ttr tte).1.rowsE.length = (loadTT cfg ttr tte).2.rowsE.length ∧
    (∀ row ∈ (loadTT cfg ttr tte).1.rowsE, row ≠ []) := by
  have hpre : (loadTTpre cfg ttr tte).1.rowsE.length
      = (loadTTpre cfg ttr tte).2.rowsE.length := by
    simp [loadTTpre, buildCsr]
  refine ⟨rfl, hpre, ?_, ?_⟩
  · exact maskFilter_length_congr _ _ _ hpre
  · intro row hrow
    have : (loadTT cfg ttr tte).1.rowsE
        = (loadTTpre cfg ttr tte).1.rowsE.filter (fun r => !r.isEmpty) := by
      show maskFilter ((loadTTpre cfg ttr tte).1.rowsE.map (fun r => !r.isEmpty))
        (loadTTpre cfg ttr tte).1.rowsE = _
      exact maskFilter_map_self _ _
    rw [this] at hrow
    have := (List.mem_filter.mp hrow).2
    cases row with
    | nil => simp at this
    | cons e es => simp

/-- Witness for C5 on one-row tr/te tables. -/
theorem load_tt_aligned_witness :
    ([((0 : Nat), (1 : Nat), (1 : Nat))] : List CsvRow) ≠ [] ∧
    ([((0 : Nat), (2 : Nat), (1 : Nat))] : List CsvRow) ≠ [] ∧
    ((loadTT ⟨true, 3⟩ [(0, 1, 1)] [(0, 2, 1)]).1.ncols
        = (loadTT ⟨true, 3⟩ [(0, 1, 1)] [(0, 2, 1)]).2.ncols ∧
      (loadTTpre ⟨true, 3⟩ [(0, 1, 1)] [(0, 2, 1)]).1.rowsE.length
        = (loadTTpre ⟨true, 3⟩ [(0, 1, 1)] [(0, 2, 1)]).2.rowsE.length ∧
      (loadTT ⟨true, 3⟩ [(0, 1, 1)] [(0, 2, 1)]).1.rowsE.length
        = (loadTT ⟨true, 3⟩ [(0, 1, 1)] [(0, 2, 1)]).2.rowsE.length ∧
      (∀ row ∈ (loadTT ⟨true, 3⟩ [(0, 1, 1)] [(0, 2, 1)]).1.rowsE, row ≠ [])) :=
  ⟨by decide, by decide,
    load_tt_aligned ⟨true, 3⟩ [(0, 1, 1)] [(0, 2, 1)] (by decide) (by decide)⟩

/-- C2 (evaluation at the failing input): with tr table `[(0, 0, 1)]`
and te table `[(1, 5, 1)]`, user 0 has a tr row but no te row.  The
pruning mask is derived from tr alone (the combined
`keep_idx = tr_idx * te_idx` of line 243 is dead code), so the
returned pair keeps user 0: its tr row is non-empty while its te row
is empty, violating the claimed tr-to-te direction of the row-presence
invariant. -/
theorem load_tt_keeps_unmatched_tr_row :
    (loadTT ⟨true, 6⟩ [(0, 0, 1)] [(1, 5, 1)]).1.rowsE.getD 0 [] ≠ [] ∧
    (loadTT ⟨true, 6⟩ [(0, 0, 1)] [(1, 5, 1)]).2.rowsE.getD 0 [] = [] ∧
    (loadTT ⟨true, 6⟩ [(0, 0, 1)] [(1, 5, 1)]).1.rowsE.length = 1 ∧
    (loadTT ⟨true, 6⟩ [(0, 0, 1)] [(1, 5, 1)]).2.rowsE.length = 1 := by
  decide

/-- C10: `DataReader.load_data` raises `ValueError` for any datatype
string other than the four recognized ones, without reading any
partition file, and dispatches the recognized ones to the train loader,
the validation/test pair loader, and — for `full` — the vertical stack
of train, `validation_tr + validation_te` and `test_tr + test_te`. -/
theorem load_data_dispatch (env : ReaderEnv) (datatype : String) :
    (datatype ≠ "train" → datatype ≠ "validation" → datatype ≠ "test" → datatype ≠ "full" →
      load_data env datatype =
        (Except.error "Parameter datatype should be in [train, validation, test, full]", [])) ∧
    load_data env "train"
      = (Except.ok (LoadOut.single (load_train_data env).1), ["train.csv"]) ∧
    load_data env "validation" = (Except.ok (LoadOut.pair
        (load_train_test_data env "validation").1.1
        (load_train_test_data env "validation").1.2),
      ["validation_tr.csv", "validation_te.csv"]) ∧
    load_data env "test" = (Except.ok (LoadOut.pair
        (load_train_test_data env "test").1.1
        (load_train_test_data env "test").1.2),
      ["test_tr.csv", "test_te.csv"]) ∧
    load_data env "full" = (Except.ok (LoadOut.single (vstackM
        [(load_train_data env).1,
         matAdd (load_train_test_data env "validation").1.1
           (load_train_test_data env "validation").1.2,
         matAdd (load_train_test_data env "test").1.1
           (load_train_test_data env "test").1.2])),
      ["train.csv", "validation_tr.csv", "validation_te.csv", "test_tr.csv", "test_te.csv"]) := by
  refine ⟨?_, rfl, rfl, rfl, rfl⟩
  intro hd1 hd2 hd3 hd4
  unfold load_data
  rw [if_neg hd1, if_neg hd2, if_neg hd3, if_neg hd4]

/-- Witness for C10: an unrecognized datatype string yields the
`ValueError` with no file read. -/
theorem load_data_dispatch_witness :
    ("foo" : String) ≠ "train" ∧
    load_data env0 "foo" =
      (Except.error "Parameter datatype should be in [train, validation, test, full]", []) :=
  ⟨by decide,
    (load_data_dispatch env0 "foo").1 (by decide) (by decide) (by decide) (by decide)⟩

/-! ### Pipeline lemmas -/

/-- C7: the pipeline output is independent of the generator state
inherited before the call — `process` re-seeds from `cfg.seed` before
every random draw, so for a fixed seed, input table (same rows in the
same order) and configuration, two independent runs produce identical
id lists and identical persisted tables. -/
theorem process_deterministic {σ : Type} (ops : RngOps σ) (st st' : σ)
    (cfg : Config) (rawT : Table) :
    process ops st cfg rawT = process ops st' cfg rawT := rfl

theorem mem_insSorted (a x : Nat) (l : List Nat) : x ∈ insSorted a l ↔ x = a ∨ x ∈ l := by
  induction l with
  | nil => simp [insSorted]
  | cons b t ih =>
    unfold insSorted
    split
    · simp
    · rw [List.mem_cons, ih, List.mem_cons]
      tauto

theorem nodup_insSorted (a : Nat) (l : List Nat) (ha : a ∉ l) (hl : l.Nodup) :
    (insSorted a l).Nodup := by
  induction l with
  | nil => simp [insSorted]
  | cons b t ih =>
    unfold insSorted
    split
    · exact List.nodup_cons.mpr ⟨ha, hl⟩
    · have hbt := List.nodup_cons.mp hl
      have ha' : a ∉ t := fun h => ha (List.mem_cons_of_mem b h)
      have hb : b ∉ insSorted a t := by
        rw [mem_insSorted]
        rintro (rfl | h)
        · exact ha (List.mem_cons_self _ _)
        · exact hbt.1 h
      exact List.nodup_cons.mpr ⟨hb, ih ha' hbt.2⟩

theorem mem_sortNat (x : Nat) (l : List Nat) : x ∈ sortNat l ↔ x ∈ l := by
  induction l with
  | nil => simp [sortNat]
  | cons a t ih =>
    show x ∈ insSorted a (sortNat t) ↔ _
    rw [mem_insSorted, ih, List.mem_cons]

theorem nodup_sortNat (l : List Nat) (h : l.Nodup) : (sortNat l).Nodup := by
  induction l with
  | nil => simp [sortNat]
  | cons a t ih =>
    have hat := List.nodup_cons.mp h
    show (insSorted a (sortNat t)).Nodup
    exact nodup_insSorted a (sortNat t) (fun hm => hat.1 ((mem_sortNat a t).mp hm)) (ih hat.2)

theorem mem_uniqueFirstAux (x : Nat) (l : List Nat) : ∀ (seen : List Nat),
    (x ∈ uniqueFirstAux seen l ↔ x ∈ l ∧ x ∉ seen) := by
  induction l with
  | nil =>
    intro seen
    simp [uniqueFirstAux]
  | cons a t ih =>
    intro seen
    unfold uniqueFirstAux
    split
    case isTrue hmem =>
      rw [ih seen]
      constructor
      · rintro ⟨hm, hs⟩
        exact ⟨List.mem_cons_of_mem a hm, hs⟩
      · rintro ⟨hm, hs⟩
        rcases List.mem_cons.mp hm with rfl | hm2
        · exact absurd hmem hs
        · exact ⟨hm2, hs⟩
    case isFalse hmem =>
      rw [List.mem_cons, ih (a :: seen)]
      constructor
      · rintro (rfl | ⟨hm, hs⟩)
        · exact ⟨List.mem_cons_self _ _, hmem⟩
        · exact ⟨List.mem_cons_of_mem a hm, fun hx => hs (List.mem_cons_of_mem a hx)⟩
      · rintro ⟨hm, hs⟩
        by_cases hxa : x = a
        · exact Or.inl hxa
        · right
          rcases List.mem_cons.mp hm with rfl | hm2
          · exact absurd rfl hxa
          · exact ⟨hm2, fun hx => (List.mem_cons.mp hx).elim hxa hs⟩

theorem mem_uniqueFirst (x : Nat) (l : List Nat) : x ∈ uniqueFirst l ↔ x ∈ l := by
  unfold uniqueFirst
  rw [mem_uniqueFirstAux]
  simp

theorem nodup_uniqueFirstAux (l : List Nat) : ∀ (seen : List Nat),
    (uniqueFirstAux seen l).Nodup := by
  induction l with
  | nil =>
    intro seen
    simp [uniqueFirstAux]
  | cons a t ih =>
    intro seen
    unfold uniqueFirstAux
    split
    · exact ih seen
    case isFalse hmem =>
      refine List.nodup_cons.mpr ⟨?_, ih (a :: seen)⟩
      intro hmem2
      have := (mem_uniqueFirstAux a t (a :: seen)).mp hmem2
      exact this.2 (List.mem_cons_self _ _)

theorem nodup_uniqueFirst (l : List Nat) : (uniqueFirst l).Nodup :=
  nodup_uniqueFirstAux l []

theorem mem_keysOf (l : List Row) (key : Row → Nat) (u : Nat) :
    u ∈ keysOf l key ↔ ∃ r ∈ l, key r = u := by
  unfold keysOf
  rw [mem_sortNat, mem_uniqueFirst, List.mem_map]

theorem nodup_keysOf (l : List Row) (key : Row → Nat) : (keysOf l key).Nodup :=
  nodup_sortNat _ (nodup_uniqueFirst _)

theorem procUsers0_eq_keysOf (cfg : Config) (rawT : Table) :
    procUsers0 cfg rawT = keysOf (procRetained cfg rawT) userOf := by
  unfold procUsers0 procRetained filterTbl get_count
  dsimp only
  rw [List.map_map]
  show List.map (fun k => k) _ = _
  simp

theorem nodup_procUniqueUid {σ : Type} (ops : RngOps σ) (cfg : Config) (rawT : Table)
    (hnd : (procPerm ops cfg rawT).1.Nodup)
    (hlt : ∀ i ∈ (procPerm ops cfg rawT).1, i < (procUsers0 cfg rawT).length) :
    (procUniqueUid ops cfg rawT).Nodup := by
  unfold procUniqueUid
  apply List.Nodup.map_on ?_ hnd
  intro i hi j hj heq
  have hi' := hlt i hi
  have hj' := hlt j hj
  have h0 : (procUsers0 cfg rawT).Nodup := by
    rw [procUsers0_eq_keysOf]
    exact nodup_keysOf _ _
  rw [List.getD_eq_getElem _ _ hi', List.getD_eq_getElem _ _ hj'] at heq
  exact (List.Nodup.getElem_inj_iff h0).mp heq

theorem slices_eq {σ : Type} (ops : RngOps σ) (cfg : Config) (rawT : Table)
    (hh : 2 * cfg.heldout ≤ (procUniqueUid ops cfg rawT).length) :
    procTrUsers ops cfg rawT = (procUniqueUid ops cfg rawT).take
        ((procUniqueUid ops cfg rawT).length - 2 * cfg.heldout) ∧
    procVdUsers ops cfg rawT = ((procUniqueUid ops cfg rawT).drop
        ((procUniqueUid ops cfg rawT).length - 2 * cfg.heldout)).take cfg.heldout ∧
    procTeUsers ops cfg rawT = ((procUniqueUid ops cfg rawT).drop
        ((procUniqueUid ops cfg rawT).length - cfg.heldout)).take cfg.heldout := by
  have e1 : pyIdx (procUniqueUid ops cfg rawT).length 0 = 0 := by
    unfold pyIdx
    rw [if_neg (by omega)]
    simp
  have e2 : pyIdx (procUniqueUid ops cfg rawT).length
      (((procUniqueUid ops cfg rawT).length : Int) - 2 * cfg.heldout)
      = (procUniqueUid ops cfg rawT).length - 2 * cfg.heldout := by
    unfold pyIdx
    rw [if_neg (by omega)]
    have ht : ((((procUniqueUid ops cfg rawT).length : Int)) - 2 * cfg.heldout).toNat
        = (procUniqueUid ops cfg rawT).length - 2 * cfg.heldout := by omega
    rw [ht]
    exact Nat.min_eq_left (by omega)
  have e3 : pyIdx (procUniqueUid ops cfg rawT).length
      (((procUniqueUid ops cfg rawT).length : Int) - cfg.heldout)
      = (procUniqueUid ops cfg rawT).length - cfg.heldout := by
    unfold pyIdx
    rw [if_neg (by omega)]
    have ht : ((((procUniqueUid ops cfg rawT).length : Int)) - cfg.heldout).toNat
        = (procUniqueUid ops cfg rawT).length - cfg.heldout := by omega
    rw [ht]
    exact Nat.min_eq_left (by omega)
  have e4 : pyIdx (procUniqueUid ops cfg rawT).length
      ((procUniqueUid ops cfg rawT).length : Int) = (procUniqueUid ops cfg rawT).length := by
    unfold pyIdx
    rw [if_neg (by omega)]
    have ht : (((procUniqueUid ops cfg rawT).length : Int)).toNat
        = (procUniqueUid ops cfg rawT).length := by omega
    rw [ht]
    exact Nat.min_self _
  refine ⟨?_, ?_, ?_⟩
  · show pySlice (procUniqueUid ops cfg rawT) 0 _ = _
    unfold pySlice
    rw [e1, e2]
    simp
  · show pySlice (procUniqueUid ops cfg rawT) _ _ = _
    unfold pySlice
    rw [e2, e3]
    have harith : (procUniqueUid ops cfg rawT).length - cfg.heldout -
        ((procUniqueUid ops cfg rawT).length - 2 * cfg.heldout) = cfg.heldout := by
      omega
    rw [harith]
  · show pySlice (procUniqueUid ops cfg rawT) _ _ = _
    unfold pySlice
    rw [e3, e4]
    have harith : (procUniqueUid ops cfg rawT).length -
        ((procUniqueUid ops cfg rawT).length - cfg.heldout) = cfg.heldout := by
      omega
    rw [harith]

/-- C6: when the drawn permutation really is a permutation of
`range n` (duplicate-free, in-range indices — the contract of
`np.random.permutation`) and the retained user count is at least
`2 * heldout`, the three user slices (train = first `n − 2h` users,
validation = next `h`, test = last `h`) are pairwise disjoint. -/
theorem user_partitions_disjoint {σ : Type} (ops : RngOps σ) (cfg : Config) (rawT : Table)
    (hnd : (procPerm ops cfg rawT).1.Nodup)
    (hlt : ∀ i ∈ (procPerm ops cfg rawT).1, i < (procUsers0 cfg rawT).length)
    (hh : 2 * cfg.heldout ≤ (procUniqueUid ops cfg rawT).length) :
    List.Disjoint (procTrUsers ops cfg rawT) (procVdUsers ops cfg rawT) ∧
    List.Disjoint (procTrUsers ops cfg rawT) (procTeUsers ops cfg rawT) ∧
    List.Disjoint (procVdUsers ops cfg rawT) (procTeUsers ops cfg rawT) := by
  obtain ⟨e1, e2, e3⟩ := slices_eq ops cfg rawT hh
  have hu : (procUniqueUid ops cfg rawT).Nodup := nodup_procUniqueUid ops cfg rawT hnd hlt
  refine ⟨?_, ?_, ?_⟩
  · rw [e1, e2]
    exact List.disjoint_of_subset_right (List.take_subset _ _)
      (List.disjoint_take_drop hu le_rfl)
  · rw [e1, e3]
    exact List.disjoint_of_subset_right (List.take_subset _ _)
      (List.disjoint_take_drop hu (by omega))
  · rw [e2, e3]
    have heq : ((procUniqueUid ops cfg rawT).drop
          ((procUniqueUid ops cfg rawT).length - 2 * cfg.heldout)).drop cfg.heldout
        = (procUniqueUid ops cfg rawT).drop
          ((procUniqueUid ops cfg rawT).length - cfg.heldout) := by
      rw [List.drop_drop]
      congr 1
      omega
    have hsub : ((procUniqueUid ops cfg rawT).drop
          ((procUniqueUid ops cfg rawT).length - cfg.heldout)).take cfg.heldout
        ⊆ ((procUniqueUid ops cfg rawT).drop
          ((procUniqueUid ops cfg rawT).length - 2 * cfg.heldout)).drop cfg.heldout := by
      rw [heq]
      exact List.take_subset _ _
    have hnodup2 : ((procUniqueUid ops cfg rawT).drop
        ((procUniqueUid ops cfg rawT).length - 2 * cfg.heldout)).Nodup :=
      (List.drop_sublist _ _).nodup hu
    exact List.disjoint_of_subset_right hsub
      (List.disjoint_take_drop hnodup2 le_rfl)

/-- Witness for C6 on the concrete pipeline run: users 1, 2, 3 split
into train `[1]`, validation `[2]`, test `[3]`. -/
theorem user_partitions_disjoint_witness :
    (procPerm ops0 cfg0 raw0).1.Nodup ∧
    (∀ i ∈ (procPerm ops0 cfg0 raw0).1, i < (procUsers0 cfg0 raw0).length) ∧
    2 * cfg0.heldout ≤ (procUniqueUid ops0 cfg0 raw0).length ∧
    (List.Disjoint (procTrUsers ops0 cfg0 raw0) (procVdUsers ops0 cfg0 raw0) ∧
     List.Disjoint (procTrUsers ops0 cfg0 raw0) (procTeUsers ops0 cfg0 raw0) ∧
     List.Disjoint (procVdUsers ops0 cfg0 raw0) (procTeUsers ops0 cfg0 raw0)) :=
  ⟨by decide, by decide, by decide,
    user_partitions_disjoint ops0 cfg0 raw0 (by decide) (by decide) (by decide)⟩

theorem snd_mem_of_mem_enumFrom {α : Type} {p : Nat × α} :
    ∀ {l : List α} {n : Nat}, p ∈ l.enumFrom n → p.2 ∈ l := by
  intro l
  induction l with
  | nil =>
    intro n h
    simp at h
  | cons a t ih =>
    intro n h
    rw [List.enumFrom_cons] at h
    rcases List.mem_cons.mp h with rfl | h2
    · exact List.mem_cons_self _ _
    · exact List.mem_cons_of_mem a (ih h2)

theorem splitGroup_subset {σ : Type} (ops : RngOps σ) (st : σ) (tp : ℚ) (group : List Row) :
    (∀ r ∈ (splitGroup ops st tp group).1, r ∈ group) ∧
    (∀ r ∈ (splitGroup ops st tp group).2.1, r ∈ group) := by
  unfold splitGroup
  dsimp only
  split
  · constructor <;>
    · intro r hr
      dsimp only at hr
      obtain ⟨p, hp, hpr⟩ := List.mem_map.mp hr
      have hmem := (List.mem_filter.mp hp).1
      have hsnd := snd_mem_of_mem_enumFrom (show p ∈ group.enumFrom 0 from hmem)
      rw [← hpr]
      exact hsnd
  · constructor <;> (intro r hr; simp at hr)

theorem foldl_accum_subset {σ β : Type} (rows : List Row)
    (g : List Row × List Row × σ → β → List Row × List Row × σ)
    (users : List β) (acc : List Row × List Row × σ)
    (hg : ∀ acc u, (∀ r ∈ (g acc u).1, r ∈ acc.1 ∨ r ∈ rows) ∧
        (∀ r ∈ (g acc u).2.1, r ∈ acc.2.1 ∨ r ∈ rows))
    (h1 : ∀ r ∈ acc.1, r ∈ rows) (h2 : ∀ r ∈ acc.2.1, r ∈ rows) :
    (∀ r ∈ (users.foldl g acc).1, r ∈ rows) ∧
    (∀ r ∈ (users.foldl g acc).2.1, r ∈ rows) := by
  induction users generalizing acc with
  | nil => exact ⟨h1, h2⟩
  | cons u us ih =>
    rw [List.foldl_cons]
    apply ih
    · intro r hr
      rcases (hg acc u).1 r hr with h | h
      · exact h1 r h
      · exact h
    · intro r hr
      rcases (hg acc u).2 r hr with h | h
      · exact h2 r h
      · exact h

theorem split_train_test_subset {σ : Type} (ops : RngOps σ) (stIn : σ) (seed : Nat)
    (tp : ℚ) (rows : List Row) :
    (∀ r ∈ (split_train_test ops stIn seed tp rows).1.1, r ∈ rows) ∧
    (∀ r ∈ (split_train_test ops stIn seed tp rows).1.2, r ∈ rows) := by
  unfold split_train_test
  dsimp only
  apply foldl_accum_subset
  · intro acc u
    constructor
    · intro r hr
      dsimp only at hr
      rcases List.mem_append.mp hr with h | h
      · exact Or.inl h
      · exact Or.inr (List.mem_of_mem_filter
          ((splitGroup_subset ops acc.2.2 tp _).1 r h))
    · intro r hr
      dsimp only at hr
      rcases List.mem_append.mp hr with h | h
      · exact Or.inl h
      · exact Or.inr (List.mem_of_mem_filter
          ((splitGroup_subset ops acc.2.2 tp _).2 r h))
  · intro r hr
    simp at hr
  · intro r hr
    simp at hr

theorem mem_foldl_erase (todel l : List Nat) (u : Nat)
    (h : todel.count u < l.count u) :
    u ∈ todel.foldl (fun acc d => acc.erase d) l := by
  induction todel generalizing l with
  | nil =>
    rw [List.foldl_nil]
    have : 0 < l.count u := by simpa using h
    exact List.count_pos_iff.mp this
  | cons d ds ih =>
    rw [List.foldl_cons]
    apply ih
    by_cases hdu : d = u
    · subst hdu
      rw [List.count_erase_self]
      rw [List.count_cons_self] at h
      omega
    · rw [List.count_erase_of_ne (Ne.symm hdu)]
      rw [List.count_cons_of_ne (Ne.symm hdu)] at h
      exact h

theorem pySlice_subset {α : Type} (l : List α) (i j : Int) : pySlice l i j ⊆ l := by
  unfold pySlice
  intro x hx
  exact List.drop_subset _ _ (List.take_subset _ _ hx)

theorem procVdUsers_subset {σ : Type} (ops : RngOps σ) (cfg : Config) (rawT : Table) :
    procVdUsers ops cfg rawT ⊆ procUniqueUid ops cfg rawT := by
  unfold procVdUsers
  exact pySlice_subset _ _ _

theorem procTeUsers_subset {σ : Type} (ops : RngOps σ) (cfg : Config) (rawT : Table) :
    procTeUsers ops cfg rawT ⊆ procUniqueUid ops cfg rawT := by
  unfold procTeUsers
  exact pySlice_subset _ _ _

/-- A user of a held-out partition survives into the persisted
`unique_uid` list: the deletion loop of lines 74-77 only removes users
outside `us`, and removes at most as many copies as the tail holds. -/
theorem mem_final_of_partition_user {σ : Type} (ops : RngOps σ) (cfg : Config)
    (rawT : Table) (u : Nat) (huu : u ∈ procUniqueUid ops cfg rawT)
    (hus : u ∈ procUs ops cfg rawT) :
    u ∈ procUniqueUidFinal ops cfg rawT := by
  unfold procUniqueUidFinal
  dsimp only
  apply mem_foldl_erase
  have hc1 : 0 < (procUniqueUid ops cfg rawT).count u :=
    List.count_pos_iff.mpr huu
  have hc0 : (((procUniqueUid ops cfg rawT).drop (procTrUsers ops cfg rawT).length).filter
      (fun v => v ∉ procUs ops cfg rawT)).count u = 0 := by
    rw [List.count_eq_zero]
    intro hmem
    have hnot := (List.mem_filter.mp hmem).2
    simp only [decide_not, Bool.not_eq_true', decide_eq_false_iff_not] at hnot
    exact hnot hus
  omega

theorem valData_row_facts {σ : Type} (ops : RngOps σ) (cfg : Config) (rawT : Table)
    (r : Row) (hr : r ∈ procValData ops cfg rawT) :
    userOf r ∈ procUniqueUidFinal ops cfg rawT ∧ itemOf r ∈ procUniqueIid ops cfg rawT := by
  have hr0 := hr
  unfold procValData at hr
  dsimp only at hr
  have h3 := List.mem_filter.mp hr
  have h2 := List.mem_filter.mp h3.1
  have h1 := List.mem_filter.mp h2.1
  have hitem : itemOf r ∈ procUniqueIid ops cfg rawT := by simpa using h2.2
  have huser_vd : userOf r ∈ procVdUsers ops cfg rawT := by simpa using h1.2
  refine ⟨?_, hitem⟩
  apply mem_final_of_partition_user ops cfg rawT (userOf r)
    (procVdUsers_subset ops cfg rawT huser_vd)
  apply List.mem_append.mpr
  left
  rw [mem_keysOf]
  exact ⟨r, hr0, rfl⟩

theorem testData_row_facts {σ : Type} (ops : RngOps σ) (cfg : Config) (rawT : Table)
    (r : Row) (hr : r ∈ procTestData ops cfg rawT) :
    userOf r ∈ procUniqueUidFinal ops cfg rawT ∧ itemOf r ∈ procUniqueIid ops cfg rawT := by
  have hr0 := hr
  unfold procTestData at hr
  dsimp only at hr
  have h3 := List.mem_filter.mp hr
  have h2 := List.mem_filter.mp h3.1
  have h1 := List.mem_filter.mp h2.1
  have hitem : itemOf r ∈ procUniqueIid ops cfg rawT := by simpa using h2.2
  have huser_te : userOf r ∈ procTeUsers ops cfg rawT := by simpa using h1.2
  refine ⟨?_, hitem⟩
  apply mem_final_of_partition_user ops cfg rawT (userOf r)
    (procTeUsers_subset ops cfg rawT huser_te)
  apply List.mem_append.mpr
  right
  rw [mem_keysOf]
  exact ⟨r, hr0, rfl⟩

/-- Numerizing a table whose rows all carry a vocabularied user and
item succeeds, and every produced item id indexes the item vocabulary
at an external id occurring in the training slice. -/
theorem table_closure_of_rows {σ : Type} (ops : RngOps σ) (cfg : Config) (rawT : Table)
    (part : List Row)
    (hfacts : ∀ r ∈ part, userOf r ∈ procUniqueUidFinal ops cfg rawT ∧
        itemOf r ∈ procUniqueIid ops cfg rawT) :
    ∃ t', numerize cfg.topn ⟨rawT.cols, part⟩ (proc_u2id ops cfg rawT)
        (proc_i2id ops cfg rawT) = some t' ∧
      ∀ r' ∈ t'.rows, itemOf r' < (procUniqueIid ops cfg rawT).length ∧
        (procUniqueIid ops cfg rawT).getD (itemOf r') 0
          ∈ (procTrainData ops cfg rawT).map itemOf := by
  have hsome := numerize_isSome cfg.topn ⟨rawT.cols, part⟩
    (proc_u2id ops cfg rawT) (proc_i2id ops cfg rawT)
    (fun r hr => ⟨dictLookup_isSome_of_mem (hfacts r hr).1,
      dictLookup_isSome_of_mem (hfacts r hr).2⟩)
  obtain ⟨t', ht'⟩ := Option.isSome_iff_exists.mp hsome
  refine ⟨t', ht', ?_⟩
  intro r' hr'
  obtain ⟨r, hrmem, hlook⟩ := numerize_some_item ht' r' hr'
  unfold proc_i2id at hlook
  have hd := dictLookup_eq_some hlook
  refine ⟨hd.1, ?_⟩
  rw [hd.2]
  have hiid := (hfacts r hrmem).2
  unfold procUniqueIid at hiid
  exact (mem_uniqueFirst _ _).mp hiid

/-- C3: for every pipeline run, each of the four persisted
validation/test tables is produced successfully, and every item id it
contains lies in `[0, n_items)` (with `n_items` the length of the
persisted item vocabulary) and maps back to an external item id
occurring in the training partition — restricting `val_data` and
`test_data` to `unique_iid` before numerizing closes the item
vocabulary over the training set. -/
theorem pipeline_item_vocab_closure {σ : Type} (ops : RngOps σ) (cfg : Config)
    (rawT : Table) :
    (∃ t', procValTrTable ops cfg rawT = some t' ∧
      ∀ r' ∈ t'.rows, itemOf r' < (procUniqueIid ops cfg rawT).length ∧
        (procUniqueIid ops cfg rawT).getD (itemOf r') 0
          ∈ (procTrainData ops cfg rawT).map itemOf) ∧
    (∃ t', procValTeTable ops cfg rawT = some t' ∧
      ∀ r' ∈ t'.rows, itemOf r' < (procUniqueIid ops cfg rawT).length ∧
        (procUniqueIid ops cfg rawT).getD (itemOf r') 0
          ∈ (procTrainData ops cfg rawT).map itemOf) ∧
    (∃ t', procTestTrTable ops cfg rawT = some t' ∧
      ∀ r' ∈ t'.rows, itemOf r' < (procUniqueIid ops cfg rawT).length ∧
        (procUniqueIid ops cfg rawT).getD (itemOf r') 0
          ∈ (procTrainData ops cfg rawT).map itemOf) ∧
    (∃ t', procTestTeTable ops cfg rawT = some t' ∧
      ∀ r' ∈ t'.rows, itemOf r' < (procUniqueIid ops cfg rawT).length ∧
        (procUniqueIid ops cfg rawT).getD (itemOf r') 0
          ∈ (procTrainData ops cfg rawT).map itemOf) := by
  refine ⟨?_, ?_, ?_, ?_⟩
  · unfold procValTrTable
    apply table_closure_of_rows
    intro r hr
    apply valData_row_facts ops cfg rawT r
    unfold procValSplit at hr
    exact (split_train_test_subset ops (procPerm ops cfg rawT).2 cfg.seed cfg.test_prop
      (procValData ops cfg rawT)).1 r hr
  · unfold procValTeTable
    apply table_closure_of_rows
    intro r hr
    apply valData_row_facts ops cfg rawT r
    unfold procValSplit at hr
    exact (split_train_test_subset ops (procPerm ops cfg rawT).2 cfg.seed cfg.test_prop
      (procValData ops cfg rawT)).2 r hr
  · unfold procTestTrTable
    apply table_closure_of_rows
    intro r hr
    apply testData_row_facts ops cfg rawT r
    unfold procTestSplit at hr
    exact (split_train_test_subset ops (procValSplit ops cfg rawT).2 cfg.seed cfg.test_prop
      (procTestData ops cfg rawT)).1 r hr
  · unfold procTestTeTable
    apply table_closure_of_rows
    intro r hr
    apply testData_row_facts ops cfg rawT r
    unfold procTestSplit at hr
    exact (split_train_test_subset ops (procValSplit ops cfg rawT).2 cfg.seed cfg.test_prop
      (procTestData ops cfg rawT)).2 r hr

/-- Witness for C3 on the concrete pipeline run. -/
theorem pipeline_item_vocab_closure_witness :
    (∃ t', procValTrTable ops0 cfg0 raw0 = some t' ∧
      ∀ r' ∈ t'.rows, itemOf r' < (procUniqueIid ops0 cfg0 raw0).length ∧
        (procUniqueIid ops0 cfg0 raw0).getD (itemOf r') 0
          ∈ (procTrainData ops0 cfg0 raw0).map itemOf) ∧
    (∃ t', procValTeTable ops0 cfg0 raw0 = some t' ∧
      ∀ r' ∈ t'.rows, itemOf r' < (procUniqueIid ops0 cfg0 raw0).length ∧
        (procUniqueIid ops0 cfg0 raw0).getD (itemOf r') 0
          ∈ (procTrainData ops0 cfg0 raw0).map itemOf) ∧
    (∃ t', procTestTrTable ops0 cfg0 raw0 = some t' ∧
      ∀ r' ∈ t'.rows, itemOf r' < (procUniqueIid ops0 cfg0 raw0).length ∧
        (procUniqueIid ops0 cfg0 raw0).getD (itemOf r') 0
          ∈ (procTrainData ops0 cfg0 raw0).map itemOf) ∧
    (∃ t', procTestTeTable ops0 cfg0 raw0 = some t' ∧
      ∀ r' ∈ t'.rows, itemOf r' < (procUniqueIid ops0 cfg0 raw0).length ∧
        (procUniqueIid ops0 cfg0 raw0).getD (itemOf r') 0
          ∈ (procTrainData ops0 cfg0 raw0).map itemOf) :=
  pipeline_item_vocab_closure ops0 cfg0 raw0
